import Mathlib

/-!
Verification of the filter-and-aggregate core of the video-game-sales
dashboard.  The Python sources are shallowly embedded: pandas DataFrames
become `List Record`, boolean-mask filtering becomes `List.filter`,
`groupby(...).sum()` becomes grouping over the (ascending-sorted) distinct
keys, and the floating-point sales figures are idealised as exact numbers
(`Int`; every claim under scrutiny involves only addition and order, so
the numeric carrier is irrelevant to their content, and exact arithmetic
is the standard idealisation of the float accumulation).
Fallible pandas operations are embedded in `Option` / `Except`.
-/

namespace VG

/-- A cleaned game-sales record, one row of `data/vgsales_clean.csv`
(columns Name, Platform, Year, Genre, Publisher, the four regional sales
and the derived Total_Sales).  Sales figures are modelled as `Int`. -/
structure Record where
  name : String
  platform : String
  year : Int
  genre : String
  publisher : String
  na : Int
  eu : Int
  jp : Int
  other : Int
  totalSales : Int
deriving DecidableEq

/-- A raw row of `data/vgsales_raw.csv` before `clean_dataset` runs:
`Year` may be missing (pandas NaN, modelled as `none`), `Genre` and
`Publisher` may be missing, and there is no Total_Sales column yet. -/
structure RawRecord where
  name : String
  platform : String
  year : Option Int
  genre : Option String
  publisher : Option String
  na : Int
  eu : Int
  jp : Int
  other : Int
deriving DecidableEq

/-- Accumulator loop for `drop_duplicates`: keep a row iff it has not been
seen before (pandas `DataFrame.drop_duplicates`, keep="first", with NaN
compared equal to NaN — `Option.none = Option.none` here). -/
def dropDupAux {α : Type} [DecidableEq α] (seen : List α) : List α → List α
  | [] => []
  | r :: rs => if r ∈ seen then dropDupAux seen rs else r :: dropDupAux (r :: seen) rs

/-- Embeds `df.drop_duplicates()` from `clean_data.py` line 13. -/
def drop_duplicates {α : Type} [DecidableEq α] (l : List α) : List α :=
  dropDupAux [] l

/-- The mask `df["Year"].between(1980, 2025)` from `clean_data.py`
line 14: inclusive on both ends, `False` on a missing year. -/
def year_ok (r : RawRecord) : Bool :=
  match r.year with
  | some y => decide (1980 ≤ y ∧ y ≤ 2025)
  | none => false

/-- The remaining normalisation of `clean_dataset` (lines 15-24) applied
to one surviving row: `astype(int)` on the year (already integral here and
guaranteed present after the `between` filter, so `getD 0` is never the
default), `fillna("Unknown")` on Genre and Publisher, and the derived
`Total_Sales = NA + EU + JP + Other`. -/
def to_record (r : RawRecord) : Record :=
  { name := r.name
    platform := r.platform
    year := r.year.getD 0
    genre := r.genre.getD "Unknown"
    publisher := r.publisher.getD "Unknown"
    na := r.na
    eu := r.eu
    jp := r.jp
    other := r.other
    totalSales := r.na + r.eu + r.jp + r.other }

/-- Embeds `clean_dataset` from `clean_data.py` lines 12-27: drop exact
duplicates, keep rows whose year is in 1980..2025, fill missing
Genre/Publisher with "Unknown", derive Total_Sales. -/
def clean_dataset (raws : List RawRecord) : List Record :=
  ((drop_duplicates raws).filter year_ok).map to_record

/-- The sidebar state read by `apply_filters`: the multiselect values for
Gênero / Plataforma / Publisher and the year slider `(lo, hi)`.  The
publisher list is only consulted by the market-analysis pages. -/
structure Selection where
  genres : List String
  platforms : List String
  publishers : List String
  yearLo : Int
  yearHi : Int
deriving DecidableEq

/-- Embeds `apply_filters` of `pages/1_Initial_Analysis.py` lines 48-53: the
three successive boolean-mask restrictions `Genre.isin`, `Platform.isin`,
`Year.between` (inclusive).  No publisher dimension on this page. -/
def apply_filters_initial (sel : Selection) (df : List Record) : List Record :=
  ((df.filter fun r => decide (r.genre ∈ sel.genres)).filter
      fun r => decide (r.platform ∈ sel.platforms)).filter
    fun r => decide (sel.yearLo ≤ r.year ∧ r.year ≤ sel.yearHi)

/-- Embeds `apply_filters` of `pages/3_Publisher_Platform.py` lines 56-62 (and
`pages/3_Análise_de_Mercado.py` lines 60-64): same masks plus
`Publisher.isin`. -/
def apply_filters_market (sel : Selection) (df : List Record) : List Record :=
  (((df.filter fun r => decide (r.genre ∈ sel.genres)).filter
        fun r => decide (r.platform ∈ sel.platforms)).filter
      fun r => decide (r.publisher ∈ sel.publishers)).filter
    fun r => decide (sel.yearLo ≤ r.year ∧ r.year ≤ sel.yearHi)

/-- Lexicographic comparison of char lists, written as an explicitly
computable function (the ambient `String` order instances do not reduce
inside the kernel).  It is proved equivalent to the list order below. -/
def chars_lt : List Char → List Char → Bool
  | [], [] => false
  | [], _ :: _ => true
  | _ :: _, [] => false
  | a :: as, b :: bs => if a < b then true else if b < a then false else chars_lt as bs

/-- Computable `≤` on strings: `a ≤ b` iff not `b < a` lexicographically
(proved equivalent to the ambient string order below). -/
def str_le (a b : String) : Bool := !chars_lt b.data a.data

/-- The distinct grouping keys in pandas order: `df.groupby(key)` sorts
the group keys ascending (`sort=True` is the pandas default).  Embedded
as deduplication followed by an ascending insertion sort under the
lexicographic string order. -/
def group_keys (f : Record → String) (view : List Record) : List String :=
  ((view.map f).dedup).insertionSort fun a b => str_le a b = true

/-- Embeds `df.groupby(key)["Total_Sales"].sum()` (used by every page): the
resulting series, as the ascending-key list of
`(key, sum of Total_Sales over that group)` pairs.  Keys with no
record do not appear. -/
def sum_by (f : Record → String) (view : List Record) : List (String × Int) :=
  (group_keys f view).map fun k =>
    (k, ((view.filter fun r => decide (f r = k)).map Record.totalSales).sum)

/-- Scan kept by `Series.idxmax`: the current best pair is replaced only
by a strictly larger value, so the first maximal element wins. -/
def idxmaxAux (best : String × Int) : List (String × Int) → String × Int
  | [] => best
  | q :: rest => if best.2 < q.2 then idxmaxAux q rest else idxmaxAux best rest

/-- Embeds `Series.idxmax` on a `(key, value)` series: the key of the first
occurrence of the maximum value.  On an empty series pandas raises
`ValueError` ("attempt to get argmax of an empty sequence"), embedded
as `none`. -/
def idxmax : List (String × Int) → Option String
  | [] => none
  | p :: rest => some (idxmaxAux p rest).1

/-- The Top-Publisher KPI of `kpi_section` in
`pages/3_Publisher_Platform.py` line 68 (and
`pages/3_Análise_de_Mercado.py` line 80):
`df.groupby("Publisher")["Total_Sales"].sum().idxmax()`. -/
def kpi_top_publisher (view : List Record) : Option String :=
  idxmax (sum_by Record.publisher view)

/-- The Top-Platform KPI of `kpi_section` in
`pages/3_Publisher_Platform.py` line 71 (and
`pages/3_Análise_de_Mercado.py` line 84):
`df.groupby("Platform")["Total_Sales"].sum().idxmax()`. -/
def kpi_top_platform (view : List Record) : Option String :=
  idxmax (sum_by Record.platform view)

/-- Embeds `Series.sort_values(ascending=False)` on a grouped-sum series.
pandas (`pandas.core.sorting.nargsort`) reverses the input before taking
the ascending argsort and un-reverses the resulting indexer afterwards,
so a descending sort keeps entries with equal values in their original
series order — here the ascending key order of the grouped series.
Embedded as a stable descending insertion sort. -/
def sort_values_desc (t : List (String × Int)) : List (String × Int) :=
  t.insertionSort fun p q => q.2 ≤ p.2

/-- The chart pipeline
`df.groupby(f)["Total_Sales"].sum().sort_values(ascending=False).head(n)`
of `static_chart` (`pages/1_Initial_Analysis.py` lines 88-93, n = 5) and
`top_publishers_chart` (`pages/3_Publisher_Platform.py` lines 103-109,
n = 15). -/
def top_n (f : Record → String) (view : List Record) (n : Nat) : List (String × Int) :=
  (sort_values_desc (sum_by f view)).take n

/-- Embeds `Series.nlargest(n).index.tolist()` on a grouped-sum series
(`publisher_platform_heatmap`, `pages/3_Publisher_Platform.py` lines
186-187): the keys of the `n` largest values, ties resolved by keeping
the earlier entries of the series (pandas `keep="first"`), embedded as a
stable descending sort followed by `take n`. -/
def nlargest_keys (n : Nat) (t : List (String × Int)) : List String :=
  ((t.insertionSort fun p q => q.2 ≤ p.2).take n).map Prod.fst

/-- The restriction step of `publisher_platform_heatmap`
(`pages/3_Publisher_Platform.py` line 189): keep the records whose
publisher is among the top-10 publishers and whose platform is among the
top-10 platforms, both rankings taken over the unrestricted view. -/
def restricted_view (view : List Record) : List Record :=
  view.filter fun r =>
    decide (r.publisher ∈ nlargest_keys 10 (sum_by Record.publisher view) ∧
      r.platform ∈ nlargest_keys 10 (sum_by Record.platform view))

/-- The row labels of the pivoted heatmap frame: the publishers present
in the restricted data, ascending (pandas `groupby` + `pivot` index). -/
def heatmap_rows (view : List Record) : List String :=
  group_keys Record.publisher (restricted_view view)

/-- The column labels of the pivoted heatmap frame: the platforms present
in the restricted data, ascending. -/
def heatmap_cols (view : List Record) : List String :=
  group_keys Record.platform (restricted_view view)

/-- One heatmap cell: the summed Total_Sales of the restricted records
with the given publisher and platform; `0` when no record matches, which
is exactly what `pivot(...).fillna(0)` produces for an absent
combination. -/
def cell_sum (view : List Record) (p q : String) : Int :=
  (((restricted_view view).filter fun r =>
      decide (r.publisher = p ∧ r.platform = q)).map Record.totalSales).sum

/-- Embeds `publisher_platform_heatmap` (`pages/3_Publisher_Platform.py` lines
186-197, `pages/3_Análise_de_Mercado.py` lines 163-171): the pivoted,
zero-filled matrix as a row-major list of
`(publisher, (platform, sales) list)`. -/
def publisher_platform_heatmap (view : List Record) :
    List (String × List (String × Int)) :=
  (heatmap_rows view).map fun p =>
    (p, (heatmap_cols view).map fun q => (q, cell_sum view p q))

/-- A lexical CSV cell before `pd.read_csv` type inference: a token that
parses as a number (kept with its original text), a token that does not,
or an empty field. -/
inductive RawCell where
  | num (q : Int) (txt : String)
  | str (s : String)
  | empty
deriving DecidableEq

/-- A value inside a loaded DataFrame column: a float, a string (cells of
an object-dtype column), or NaN. -/
inductive Cell where
  | num (q : Int)
  | str (s : String)
  | nan
deriving DecidableEq

/-- pandas `read_csv` column-dtype inference: a column is numeric iff
none of its cells is a non-numeric token. -/
def column_is_numeric (col : List RawCell) : Bool :=
  col.all fun c =>
    match c with
    | RawCell.str _ => false
    | _ => true

/-- How one cell is materialised given the inferred dtype of its column: in a
numeric column numbers stay numbers and empties become NaN; in an object
column every cell keeps its original text as a string (numeric-looking
tokens included). -/
def infer_cell (numeric : Bool) : RawCell → Cell
  | RawCell.num q t => if numeric then Cell.num q else Cell.str t
  | RawCell.str s => Cell.str s
  | RawCell.empty => Cell.nan

/-- One line of `data/vgsales_raw.csv` restricted to the columns the
cleaning pass touches; Year and the four sales columns are raw tokens so
that malformed input can be expressed. -/
structure CsvRow where
  name : String
  platform : String
  genre : Option String
  publisher : Option String
  year : RawCell
  na : RawCell
  eu : RawCell
  jp : RawCell
  other : RawCell
deriving DecidableEq

/-- A row of the DataFrame returned by `load_raw` (`clean_data.py` lines
7-10): each tracked column materialised under its inferred dtype. -/
structure LoadedRow where
  name : String
  platform : String
  genre : Option String
  publisher : Option String
  year : Cell
  na : Cell
  eu : Cell
  jp : Cell
  other : Cell
deriving DecidableEq

/-- Embeds `load_raw` = `pd.read_csv(RAW_PATH)`: per-column dtype inference over
the whole file, then materialisation of every cell. -/
def load_raw (rows : List CsvRow) : List LoadedRow :=
  rows.map fun r =>
    { name := r.name
      platform := r.platform
      genre := r.genre
      publisher := r.publisher
      year := infer_cell (column_is_numeric (rows.map CsvRow.year)) r.year
      na := infer_cell (column_is_numeric (rows.map CsvRow.na)) r.na
      eu := infer_cell (column_is_numeric (rows.map CsvRow.eu)) r.eu
      jp := infer_cell (column_is_numeric (rows.map CsvRow.jp)) r.jp
      other := infer_cell (column_is_numeric (rows.map CsvRow.other)) r.other }

/-- Elementwise evaluation of `df["Year"].between(1980, 2025)` on one
cell: defined on floats (NaN compares False); comparing a string cell of
an object column with an int raises `TypeError`. -/
def year_between (c : Cell) : Except String Bool :=
  match c with
  | Cell.num q => Except.ok (decide ((1980 : Int) ≤ q ∧ q ≤ 2025))
  | Cell.nan => Except.ok false
  | Cell.str _ => Except.error "TypeError: not supported between str and int"

/-- The row filter `df[df["Year"].between(1980, 2025)]`, aborting the
whole operation as pandas does if any comparison raises. -/
def filter_year : List LoadedRow → Except String (List LoadedRow)
  | [] => Except.ok []
  | r :: rs => do
    let b ← year_between r.year
    let rest ← filter_year rs
    pure (if b then r :: rest else rest)

/-- Embeds `df["Year"].astype(int)` on one surviving cell: truncation to an
integer, the identity on the integral year values representable here. -/
def astype_int (c : Cell) : Cell :=
  match c with
  | Cell.num q => Cell.num q
  | c => c

/-- Elementwise `+` on object/float columns as the `Total_Sales`
derivation executes it: float addition, NaN propagation through floats,
string concatenation when both operands are strings, and `TypeError` on
any other mix. -/
def add_cells : Cell → Cell → Except String Cell
  | Cell.num a, Cell.num b => Except.ok (Cell.num (a + b))
  | Cell.str a, Cell.str b => Except.ok (Cell.str (a ++ b))
  | Cell.nan, Cell.nan => Except.ok Cell.nan
  | Cell.num _, Cell.nan => Except.ok Cell.nan
  | Cell.nan, Cell.num _ => Except.ok Cell.nan
  | _, _ => Except.error "TypeError: unsupported operand types"

/-- A fully cleaned output row of `clean_data.py`, Total_Sales column
included (kept as a `Cell`: nothing in the pipeline forces it numeric). -/
structure CleanRow where
  name : String
  platform : String
  genre : String
  publisher : String
  year : Cell
  na : Cell
  eu : Cell
  jp : Cell
  other : Cell
  total : Cell
deriving DecidableEq

/-- The per-row tail of `clean_dataset`: `astype(int)` on the year,
`fillna("Unknown")` on Genre/Publisher and the four-term Total_Sales
sum `NA + EU + JP + Other` (left-associated, as Python evaluates it). -/
def finish_row (r : LoadedRow) : Except String CleanRow := do
  let s1 ← add_cells r.na r.eu
  let s2 ← add_cells s1 r.jp
  let s3 ← add_cells s2 r.other
  pure
    { name := r.name
      platform := r.platform
      genre := r.genre.getD "Unknown"
      publisher := r.publisher.getD "Unknown"
      year := astype_int r.year
      na := r.na
      eu := r.eu
      jp := r.jp
      other := r.other
      total := s3 }

/-- Sequential per-row completion of the pipeline, aborting on the first
`TypeError` exactly as the vectorised pandas operation would. -/
def finish_rows : List LoadedRow → Except String (List CleanRow)
  | [] => Except.ok []
  | r :: rs => do
    let c ← finish_row r
    let rest ← finish_rows rs
    pure (c :: rest)

/-- The whole `main` load-and-clean path of `clean_data.py`
(`load_raw` then `clean_dataset`) over raw CSV tokens:
read, drop duplicates, year-range filter, normalise, derive Total_Sales.
A raised pandas exception surfaces as `Except.error`. -/
def clean_pipeline (rows : List CsvRow) : Except String (List CleanRow) := do
  let loaded := load_raw rows
  let deduped := drop_duplicates loaded
  let inRange ← filter_year deduped
  finish_rows inRange

/-! Concrete sample data used by witnesses and counterexamples. -/

/-- Sample record: an Action game on PS4, 2015. -/
def recA : Record :=
  { name := "Alpha", platform := "PS4", year := 2015, genre := "Action",
    publisher := "Sony", na := 2, eu := 1, jp := 0, other := 0, totalSales := 3 }

/-- Sample record: a Sports game on PS4, 2015. -/
def recB : Record :=
  { name := "Beta", platform := "PS4", year := 2015, genre := "Sports",
    publisher := "EA", na := 1, eu := 0, jp := 0, other := 0, totalSales := 1 }

/-- Sample record: an Action game on Wii, 2010. -/
def recC : Record :=
  { name := "Gamma", platform := "Wii", year := 2010, genre := "Action",
    publisher := "Nintendo", na := 1, eu := 1, jp := 0, other := 0, totalSales := 2 }

/-- Sample record: a Racing game on Wii, 2020. -/
def recD : Record :=
  { name := "Delta", platform := "Wii", year := 2020, genre := "Racing",
    publisher := "Nintendo", na := 0, eu := 0, jp := 0, other := 1, totalSales := 1 }

/-- The four-record sample store of the end-to-end scenario in the spec. -/
def sampleStore : List Record := [recA, recB, recC, recD]

/-- The end-to-end scenario selection: Action only, both platforms, all
publishers, years 2010-2020. -/
def sampleSel : Selection :=
  { genres := ["Action"], platforms := ["PS4", "Wii"],
    publishers := ["EA", "Nintendo", "Sony"], yearLo := 2010, yearHi := 2020 }

/-- Componentwise widening of a selection: every selected set grows (or
stays equal) and the year range gets wider (or stays equal).  Widening
exactly one dimension while keeping the others fixed is the special case
the claim quantifies over. -/
def widens (s1 s2 : Selection) : Prop :=
  s1.genres ⊆ s2.genres ∧ s1.platforms ⊆ s2.platforms ∧
    s1.publishers ⊆ s2.publishers ∧ s2.yearLo ≤ s1.yearLo ∧ s1.yearHi ≤ s2.yearHi

/-- A narrow selection: Action games on PS4 or Wii published by Sony or
Nintendo, 2012-2018. -/
def narrowSel : Selection :=
  { genres := ["Action"], platforms := ["PS4", "Wii"],
    publishers := ["Nintendo", "Sony"], yearLo := 2012, yearHi := 2018 }

/-- The selection `narrowSel` widened in the genre dimension only. -/
def widerSel : Selection :=
  { genres := ["Action", "Racing", "Sports"], platforms := ["PS4", "Wii"],
    publishers := ["Nintendo", "Sony"], yearLo := 2012, yearHi := 2018 }

/-- Sample raw row corresponding to `recA`. -/
def rawA : RawRecord :=
  { name := "Alpha", platform := "PS4", year := some 2015, genre := some "Action",
    publisher := some "Sony", na := 2, eu := 1, jp := 0, other := 0 }

/-- Raw row whose Genre field is missing (NaN). -/
def rawDupA : RawRecord :=
  { name := "Halo", platform := "X360", year := some 2005, genre := none,
    publisher := some "MS", na := 1, eu := 1, jp := 0, other := 0 }

/-- The same raw row but with Genre literally "Unknown": distinct from
`rawDupA` before cleaning, identical after the fill. -/
def rawDupB : RawRecord :=
  { name := "Halo", platform := "X360", year := some 2005, genre := some "Unknown",
    publisher := some "MS", na := 1, eu := 1, jp := 0, other := 0 }

/-- A view with a summed-sales tie between publishers "Aardvark" and
"Zebra": each publishes one game totalling 4; "Zebra" also appears first
in store order. -/
def tieView : List Record :=
  [{ name := "Z1", platform := "PS4", year := 2015, genre := "Action",
     publisher := "Zebra", na := 4, eu := 0, jp := 0, other := 0, totalSales := 4 },
   { name := "A1", platform := "Wii", year := 2016, genre := "Sports",
     publisher := "Aardvark", na := 1, eu := 1, jp := 1, other := 1, totalSales := 4 }]

/-- A two-record view whose two genres tie on summed sales. -/
def tieGenreView : List Record :=
  [{ name := "G1", platform := "PS4", year := 2015, genre := "Action",
     publisher := "X", na := 1, eu := 0, jp := 0, other := 0, totalSales := 1 },
   { name := "G2", platform := "Wii", year := 2016, genre := "Racing",
     publisher := "Y", na := 0, eu := 1, jp := 0, other := 0, totalSales := 1 }]

/-- Record constructor for the heatmap scenarios: one game with the
given publisher, platform and total sales. -/
def heatRec (nm pub plat : String) (s : Int) : Record :=
  { name := nm, platform := plat, year := 2000, genre := "Misc", publisher := pub,
    na := s, eu := 0, jp := 0, other := 0, totalSales := s }

/-- Eleven-record view with eleven platforms: "Activision" sells 2 on
each of P01..P10, "Zed" sells 1 on P11 only.  Both publishers are top-10
publishers, but P11 is not a top-10 platform. -/
def heatCexView : List Record :=
  [heatRec "A01" "Activision" "P01" 2, heatRec "A02" "Activision" "P02" 2,
   heatRec "A03" "Activision" "P03" 2, heatRec "A04" "Activision" "P04" 2,
   heatRec "A05" "Activision" "P05" 2, heatRec "A06" "Activision" "P06" 2,
   heatRec "A07" "Activision" "P07" 2, heatRec "A08" "Activision" "P08" 2,
   heatRec "A09" "Activision" "P09" 2, heatRec "A10" "Activision" "P10" 2,
   heatRec "Z01" "Zed" "P11" 1]

/-- CSV row whose four regional sales tokens are all non-numeric, with a
valid year and no missing fields. -/
def badSalesRow : CsvRow :=
  { name := "Game", platform := "PS4", genre := some "Action", publisher := some "Sony",
    year := RawCell.num 2000 "2000", na := RawCell.str "a", eu := RawCell.str "b",
    jp := RawCell.str "c", other := RawCell.str "d" }

/-- CSV row where only the NA_Sales column carries a non-numeric token. -/
def oneBadRow : CsvRow :=
  { name := "Game", platform := "PS4", genre := some "Action", publisher := some "Sony",
    year := RawCell.num 2000 "2000", na := RawCell.str "x", eu := RawCell.num 1 "1",
    jp := RawCell.num 0 "0", other := RawCell.num 0 "0" }

/-- The row the pipeline actually produces from `badSalesRow`: the load
succeeds and Total_Sales is the concatenated string "abcd". -/
def coercedRow : CleanRow :=
  { name := "Game", platform := "PS4", genre := "Action", publisher := "Sony",
    year := Cell.num 2000, na := Cell.str "a", eu := Cell.str "b",
    jp := Cell.str "c", other := Cell.str "d", total := Cell.str "abcd" }

/-! Theorems. -/

/-- C2: a record is in the filtered view iff it is in the store and its
genre, platform, (on market pages) publisher and year all pass the
selected filters; the view is a sublist of the store (order preserved);
an empty selected set for any active dimension empties the view. -/
theorem apply_filters_spec (sel : Selection) (df : List Record) (r : Record) :
    (r ∈ apply_filters_market sel df ↔
      r ∈ df ∧ r.genre ∈ sel.genres ∧ r.platform ∈ sel.platforms ∧
        r.publisher ∈ sel.publishers ∧ sel.yearLo ≤ r.year ∧ r.year ≤ sel.yearHi) ∧
    (apply_filters_market sel df).Sublist df ∧
    (sel.genres = [] → apply_filters_market sel df = []) ∧
    (sel.platforms = [] → apply_filters_market sel df = []) ∧
    (sel.publishers = [] → apply_filters_market sel df = []) ∧
    (r ∈ apply_filters_initial sel df ↔
      r ∈ df ∧ r.genre ∈ sel.genres ∧ r.platform ∈ sel.platforms ∧
        sel.yearLo ≤ r.year ∧ r.year ≤ sel.yearHi) ∧
    (apply_filters_initial sel df).Sublist df ∧
    (sel.genres = [] → apply_filters_initial sel df = []) ∧
    (sel.platforms = [] → apply_filters_initial sel df = []) := by
  refine ⟨?_, ?_, ?_, ?_, ?_, ?_, ?_, ?_, ?_⟩
  · simp only [apply_filters_market, List.mem_filter, decide_eq_true_eq]
    tauto
  · exact (List.filter_sublist _).trans
      ((List.filter_sublist _).trans ((List.filter_sublist _).trans (List.filter_sublist df)))
  · intro h
    simp [apply_filters_market, h]
  · intro h
    simp [apply_filters_market, h]
  · intro h
    simp [apply_filters_market, h]
  · simp only [apply_filters_initial, List.mem_filter, decide_eq_true_eq]
    tauto
  · exact (List.filter_sublist _).trans
      ((List.filter_sublist _).trans (List.filter_sublist df))
  · intro h
    simp [apply_filters_initial, h]
  · intro h
    simp [apply_filters_initial, h]

/-- Witness for C2: the filter specification evaluated on the concrete
four-record sample store, the end-to-end selection and the record
`recA`. -/
theorem apply_filters_spec_witness :
    (recA ∈ apply_filters_market sampleSel sampleStore ↔
      recA ∈ sampleStore ∧ recA.genre ∈ sampleSel.genres ∧
        recA.platform ∈ sampleSel.platforms ∧
        recA.publisher ∈ sampleSel.publishers ∧
        sampleSel.yearLo ≤ recA.year ∧ recA.year ≤ sampleSel.yearHi) ∧
    (apply_filters_market sampleSel sampleStore).Sublist sampleStore ∧
    (sampleSel.genres = [] → apply_filters_market sampleSel sampleStore = []) ∧
    (sampleSel.platforms = [] → apply_filters_market sampleSel sampleStore = []) ∧
    (sampleSel.publishers = [] → apply_filters_market sampleSel sampleStore = []) ∧
    (recA ∈ apply_filters_initial sampleSel sampleStore ↔
      recA ∈ sampleStore ∧ recA.genre ∈ sampleSel.genres ∧
        recA.platform ∈ sampleSel.platforms ∧
        sampleSel.yearLo ≤ recA.year ∧ recA.year ≤ sampleSel.yearHi) ∧
    (apply_filters_initial sampleSel sampleStore).Sublist sampleStore ∧
    (sampleSel.genres = [] → apply_filters_initial sampleSel sampleStore = []) ∧
    (sampleSel.platforms = [] → apply_filters_initial sampleSel sampleStore = []) :=
  apply_filters_spec sampleSel sampleStore recA

/-- Filtering a sublist with a pointwise-weaker predicate yields a
sublist of the original filtering. -/
theorem filter_sub_mono {α : Type} {l1 l2 : List α} {p q : α → Bool}
    (hl : l1.Sublist l2) (hpq : ∀ a, p a = true → q a = true) :
    (l1.filter p).Sublist (l2.filter q) :=
  (List.monotone_filter_right l1 hpq).trans (hl.filter q)

/-- C8: filtering is monotone in the selection — under any widening of
the selection (in particular a widening of a single dimension) the
filtered view has at least as many records, on both page variants. -/
theorem filter_monotone (df : List Record) (s1 s2 : Selection) (h : widens s1 s2) :
    (apply_filters_market s1 df).length ≤ (apply_filters_market s2 df).length ∧
    (apply_filters_initial s1 df).length ≤ (apply_filters_initial s2 df).length := by
  obtain ⟨hg, hp, hq, hlo, hhi⟩ := h
  constructor
  · apply List.Sublist.length_le
    apply filter_sub_mono
    · apply filter_sub_mono
      · apply filter_sub_mono
        · apply filter_sub_mono (List.Sublist.refl df)
          intro a ha
          simp only [decide_eq_true_eq] at ha ⊢
          exact hg ha
        · intro a ha
          simp only [decide_eq_true_eq] at ha ⊢
          exact hp ha
      · intro a ha
        simp only [decide_eq_true_eq] at ha ⊢
        exact hq ha
    · intro a ha
      simp only [decide_eq_true_eq] at ha ⊢
      exact ⟨le_trans hlo ha.1, le_trans ha.2 hhi⟩
  · apply List.Sublist.length_le
    apply filter_sub_mono
    · apply filter_sub_mono
      · apply filter_sub_mono (List.Sublist.refl df)
        intro a ha
        simp only [decide_eq_true_eq] at ha ⊢
        exact hg ha
      · intro a ha
        simp only [decide_eq_true_eq] at ha ⊢
        exact hp ha
    · intro a ha
      simp only [decide_eq_true_eq] at ha ⊢
      exact ⟨le_trans hlo ha.1, le_trans ha.2 hhi⟩

/-- Witness for C8: monotonicity evaluated at the sample store for a
concrete genre-only widening. -/
theorem filter_monotone_witness :
    widens narrowSel widerSel ∧
      (apply_filters_market narrowSel sampleStore).length ≤
        (apply_filters_market widerSel sampleStore).length ∧
      (apply_filters_initial narrowSel sampleStore).length ≤
        (apply_filters_initial widerSel sampleStore).length :=
  ⟨by refine ⟨?_, ?_, ?_, ?_, ?_⟩ <;> decide,
    filter_monotone sampleStore narrowSel widerSel
      (by refine ⟨?_, ?_, ?_, ?_, ?_⟩ <;> decide)⟩

/-- The market-page filtered view is a sublist of its store. -/
theorem apply_filters_market_sublist (sel : Selection) (df : List Record) :
    (apply_filters_market sel df).Sublist df :=
  (List.filter_sublist _).trans
    ((List.filter_sublist _).trans ((List.filter_sublist _).trans (List.filter_sublist df)))

/-- C9: every record of the cleaned store carries
`totalSales = na + eu + jp + other` (exact, sales being modelled as
rationals), and the invariant persists into any filtered view since
filtering never rewrites a record. -/
theorem total_sales_invariant (raws : List RawRecord) (sel : Selection) (r : Record)
    (h : r ∈ clean_dataset raws ∨ r ∈ apply_filters_market sel (clean_dataset raws)) :
    r.totalSales = r.na + r.eu + r.jp + r.other := by
  have hmem : r ∈ clean_dataset raws := by
    rcases h with h | h
    · exact h
    · exact (apply_filters_market_sublist sel (clean_dataset raws)).subset h
  simp only [clean_dataset, List.mem_map] at hmem
  obtain ⟨s, -, rfl⟩ := hmem
  rfl

/-- Witness for C9: the invariant evaluated on the one-row store cleaned
from `rawA`. -/
theorem total_sales_invariant_witness :
    (to_record rawA ∈ clean_dataset [rawA] ∨
      to_record rawA ∈ apply_filters_market sampleSel (clean_dataset [rawA])) ∧
      (to_record rawA).totalSales =
        (to_record rawA).na + (to_record rawA).eu + (to_record rawA).jp +
          (to_record rawA).other :=
  ⟨Or.inl (by decide),
    total_sales_invariant [rawA] sampleSel (to_record rawA) (Or.inl (by decide))⟩

/-- The deduplication loop returns pairwise-distinct rows none of which
was already seen. -/
theorem dropDupAux_spec {α : Type} [DecidableEq α] (l : List α) :
    ∀ seen : List α,
      (dropDupAux seen l).Pairwise (fun a b => a ≠ b) ∧
        ∀ x ∈ dropDupAux seen l, x ∉ seen := by
  induction l with
  | nil => intro seen; simp [dropDupAux]
  | cons r rs ih =>
    intro seen
    by_cases hr : r ∈ seen
    · simpa [dropDupAux, hr] using ih seen
    · have ih2 := ih (r :: seen)
      simp only [dropDupAux, hr, if_neg, ite_false]
      constructor
      · refine List.Pairwise.cons ?_ ih2.1
        intro b hb hrb
        exact ih2.2 b hb (hrb ▸ List.mem_cons_self r seen)
      · intro x hx
        rcases List.mem_cons.mp hx with rfl | hx'
        · exact hr
        · intro hxs
          exact ih2.2 x hx' (List.mem_cons_of_mem r hxs)

/-- C4 (amended): duplicate removal happens on the raw rows, before the
"Unknown" fill — the rows surviving `drop_duplicates` (and the year
filter) are pairwise distinct, and the cleaned store has exactly one
record per surviving raw row.  Full-record distinctness after the fill
does not follow (see the counterexample). -/
theorem clean_dedup_amended (raws : List RawRecord) :
    ((drop_duplicates raws).filter year_ok).Pairwise (fun a b => a ≠ b) ∧
      (clean_dataset raws).length = ((drop_duplicates raws).filter year_ok).length := by
  constructor
  · exact List.Pairwise.filter year_ok (dropDupAux_spec raws []).1
  · simp [clean_dataset]

/-- Witness for C4 (amended): the raw-level distinctness evaluated on
the concrete two-row input of the counterexample. -/
theorem clean_dedup_amended_witness :
    ((drop_duplicates [rawDupA, rawDupB]).filter year_ok).Pairwise (fun a b => a ≠ b) ∧
      (clean_dataset [rawDupA, rawDupB]).length =
        ((drop_duplicates [rawDupA, rawDupB]).filter year_ok).length :=
  clean_dedup_amended [rawDupA, rawDupB]

/-- Counterexample to C4 as stated: two distinct raw rows (missing Genre
versus explicit "Unknown") survive `drop_duplicates` — which runs before
`fillna` — and the fill then maps both to fully identical store records,
so the cleaned store does contain two records agreeing on every field. -/
theorem clean_dedup_counterexample :
    rawDupA ≠ rawDupB ∧
      clean_dataset [rawDupA, rawDupB] = [to_record rawDupA, to_record rawDupA] ∧
      ¬ (clean_dataset [rawDupA, rawDupB]).Pairwise (fun a b => a ≠ b) := by
  refine ⟨by decide, by decide, ?_⟩
  intro hpw
  have : to_record rawDupA ≠ to_record rawDupA := by
    have h2 : clean_dataset [rawDupA, rawDupB] = [to_record rawDupA, to_record rawDupA] := by
      decide
    have := h2 ▸ hpw
    exact List.rel_of_pairwise_cons this (List.mem_singleton.mpr rfl)
  exact this rfl

/-- C1: requesting the largest-group KPIs on an empty filtered view does
not produce a defined empty/zero KpiSet — the underlying
`Series.idxmax` has no answer on an empty grouping (pandas raises
`ValueError`, embedded as `none`).  Shown here on the view produced by an
empty genre selection over the sample store. -/
theorem kpi_empty_view_raises :
    apply_filters_market
        { genres := [], platforms := ["PS4", "Wii"],
          publishers := ["EA", "Nintendo", "Sony"], yearLo := 1980, yearHi := 2025 }
        sampleStore = [] ∧
      kpi_top_publisher [] = none ∧ kpi_top_platform [] = none := by
  refine ⟨by decide, rfl, rfl⟩

/-- A map of pointwise sums splits into the sum of the two maps. -/
theorem sum_map_add {α : Type} (l : List α) (f g : α → Int) :
    (l.map fun x => f x + g x).sum = (l.map f).sum + (l.map g).sum := by
  induction l with
  | nil => simp
  | cons x xs ih =>
    simp only [List.map_cons, List.sum_cons, ih]
    ring

/-- Summing an indicator over keys not containing the probe gives zero. -/
theorem sum_ite_key_not_mem (keys : List String) (x : String) (c : Int)
    (hx : x ∉ keys) : (keys.map fun k => if x = k then c else 0).sum = 0 := by
  induction keys with
  | nil => simp
  | cons k ks ih =>
    have hxk : x ≠ k := fun h => hx (h ▸ List.mem_cons_self k ks)
    have hxs : x ∉ ks := fun h => hx (List.mem_cons_of_mem k h)
    simp [hxk, ih hxs]

/-- Summing an indicator over duplicate-free keys containing the probe
once gives the indicated value. -/
theorem sum_ite_key_mem (keys : List String) (x : String) (c : Int)
    (hnd : keys.Nodup) (hx : x ∈ keys) :
    (keys.map fun k => if x = k then c else 0).sum = c := by
  induction keys with
  | nil => exact absurd hx (List.not_mem_nil x)
  | cons k ks ih =>
    rcases List.mem_cons.mp hx with rfl | hx'
    · have hxs : x ∉ ks := (List.nodup_cons.mp hnd).1
      simp [sum_ite_key_not_mem ks x c hxs]
    · have hne : x ≠ k := fun h => (List.nodup_cons.mp hnd).1 (h ▸ hx')
      simp [hne, ih (List.nodup_cons.mp hnd).2 hx']

/-- Grouping a view by any duplicate-free covering key list and summing
the per-group totals recovers the total over the view. -/
theorem sum_groups (keys : List String) (f : Record → String) (view : List Record)
    (hnd : keys.Nodup) (hcov : ∀ r ∈ view, f r ∈ keys) :
    (keys.map fun k =>
        ((view.filter fun r => decide (f r = k)).map Record.totalSales).sum).sum =
      (view.map Record.totalSales).sum := by
  induction view with
  | nil => simp
  | cons r rs ih =>
    have hr : f r ∈ keys := hcov r (List.mem_cons_self r rs)
    have hcov' : ∀ t ∈ rs, f t ∈ keys := fun t ht => hcov t (List.mem_cons_of_mem r ht)
    have step : (keys.map fun k =>
          (((r :: rs).filter fun t => decide (f t = k)).map Record.totalSales).sum) =
        keys.map fun k => (if f r = k then r.totalSales else 0) +
          ((rs.filter fun t => decide (f t = k)).map Record.totalSales).sum := by
      apply List.map_congr_left
      intro k _
      by_cases h : f r = k
      · simp [List.filter_cons, h]
      · simp [List.filter_cons, h]
    rw [step, sum_map_add, sum_ite_key_mem keys (f r) r.totalSales hnd hr, ih hcov']
    simp

/-- The grouping keys are duplicate-free. -/
theorem group_keys_nodup (f : Record → String) (view : List Record) :
    (group_keys f view).Nodup :=
  (List.perm_insertionSort (fun a b => str_le a b = true)
    ((view.map f).dedup)).symm.nodup (List.nodup_dedup _)

/-- A key appears among the grouping keys iff some record carries it. -/
theorem mem_group_keys {f : Record → String} {view : List Record} {k : String} :
    k ∈ group_keys f view ↔ ∃ r ∈ view, f r = k := by
  simp [group_keys, List.mem_insertionSort, List.mem_dedup]

/-- The computable char-list comparison agrees with the lexicographic
order on char lists. -/
theorem chars_lt_iff : ∀ a b : List Char, chars_lt a b = true ↔ a < b
  | [], [] => by
    simp only [chars_lt]
    exact iff_of_false (by simp) nofun
  | [], b :: bs => by
    simp only [chars_lt]
    exact ⟨fun _ => List.Lex.nil, fun _ => trivial⟩
  | a :: as, [] => by
    simp only [chars_lt]
    exact iff_of_false (by simp) nofun
  | a :: as, b :: bs => by
    simp only [chars_lt]
    by_cases hab : a < b
    · rw [if_pos hab]
      exact ⟨fun _ => List.Lex.rel hab, fun _ => rfl⟩
    · rw [if_neg hab]
      by_cases hba : b < a
      · rw [if_pos hba]
        refine iff_of_false (by simp) ?_
        intro h
        cases h with
        | cons h3 => exact absurd hba (lt_irrefl a)
        | rel h' => exact hab h'
      · rw [if_neg hba]
        have heq : a = b := le_antisymm (le_of_not_lt hba) (le_of_not_lt hab)
        subst heq
        constructor
        · intro h
          exact List.Lex.cons ((chars_lt_iff as bs).mp h)
        · intro h
          cases h with
          | cons h3 => exact (chars_lt_iff as bs).mpr h3
          | rel h' => exact absurd h' hab

/-- The computable comparison agrees with the ambient string order. -/
theorem str_lt_iff (a b : String) : chars_lt a.data b.data = true ↔ a < b := by
  rw [String.lt_iff_toList_lt]
  exact chars_lt_iff a.data b.data

/-- The computable `≤` agrees with the ambient string order. -/
theorem str_le_iff (a b : String) : str_le a b = true ↔ a ≤ b := by
  unfold str_le
  cases hc : chars_lt b.data a.data with
  | false =>
    refine iff_of_true rfl (le_of_not_lt fun h => ?_)
    rw [← str_lt_iff b a, hc] at h
    cases h
  | true =>
    refine iff_of_false (by simp) (not_le_of_lt ((str_lt_iff b a).mp hc))

/-- Inserting into an `≤`-sorted string list keeps it sorted. -/
theorem orderedInsert_str_le (x : String) (s : List String)
    (hs : s.Pairwise (· ≤ ·)) :
    (s.orderedInsert (fun a b => str_le a b = true) x).Pairwise (· ≤ ·) := by
  induction s with
  | nil => simp [List.orderedInsert]
  | cons y ys ih =>
    by_cases hxy : str_le x y = true
    · rw [List.orderedInsert, if_pos hxy]
      refine List.Pairwise.cons ?_ hs
      intro q hq
      have hxyle : x ≤ y := (str_le_iff x y).mp hxy
      rcases List.mem_cons.mp hq with heq | hq'
      · rw [heq]
        exact hxyle
      · exact le_trans hxyle (List.rel_of_pairwise_cons hs hq')
    · rw [List.orderedInsert, if_neg hxy]
      refine List.Pairwise.cons ?_ (ih hs.of_cons)
      intro q hq
      rcases (List.mem_orderedInsert _).mp hq with heq | hq'
      · rw [heq]
        exact le_of_not_le fun hle => hxy ((str_le_iff x y).mpr hle)
      · exact List.rel_of_pairwise_cons hs hq'

/-- The string insertion sort produces an `≤`-sorted list. -/
theorem insertionSort_str_le (l : List String) :
    (l.insertionSort fun a b => str_le a b = true).Pairwise (· ≤ ·) := by
  induction l with
  | nil => simp [List.insertionSort]
  | cons x xs ih =>
    rw [List.insertionSort]
    exact orderedInsert_str_le x _ ih

/-- The grouping keys are strictly ascending (pandas sorts group keys and
they are distinct). -/
theorem group_keys_sorted (f : Record → String) (view : List Record) :
    (group_keys f view).Pairwise (· < ·) := by
  have hle : (group_keys f view).Pairwise (· ≤ ·) :=
    insertionSort_str_le ((view.map f).dedup)
  have hne : (group_keys f view).Pairwise (· ≠ ·) := group_keys_nodup f view
  exact (hle.and hne).imp fun h => lt_of_le_of_ne h.1 h.2

/-- C7: aggregation conserves mass — the sum of the per-group totals of
any single-dimension grouping equals the sum of Total_Sales over the
whole view; no record is double-counted or dropped. -/
theorem sum_by_conservation (f : Record → String) (view : List Record) :
    ((sum_by f view).map Prod.snd).sum = (view.map Record.totalSales).sum := by
  unfold sum_by
  rw [List.map_map]
  exact sum_groups (group_keys f view) f view (group_keys_nodup f view)
    fun r hr => mem_group_keys.mpr ⟨r, hr, rfl⟩

/-- The idxmax scan returns its seed or a strictly better later entry. -/
theorem idxmaxAux_mem (l : List (String × Int)) :
    ∀ best, idxmaxAux best l = best ∨
      (idxmaxAux best l ∈ l ∧ best.2 < (idxmaxAux best l).2) := by
  induction l with
  | nil => intro best; exact Or.inl rfl
  | cons q rest ih =>
    intro best
    by_cases h : best.2 < q.2
    · simp only [idxmaxAux, h, if_pos]
      rcases ih q with heq | ⟨hmem, hlt⟩
      · refine Or.inr ⟨?_, ?_⟩
        · rw [heq]
          exact List.mem_cons_self q rest
        · rw [heq]
          exact h
      · exact Or.inr ⟨List.mem_cons_of_mem q hmem, lt_trans h hlt⟩
    · simp only [idxmaxAux, h, if_neg, ite_false]
      rcases ih best with heq | ⟨hmem, hlt⟩
      · exact Or.inl heq
      · exact Or.inr ⟨List.mem_cons_of_mem q hmem, hlt⟩

/-- The idxmax scan dominates its seed and every scanned value. -/
theorem idxmaxAux_le (l : List (String × Int)) :
    ∀ best, best.2 ≤ (idxmaxAux best l).2 ∧ ∀ p ∈ l, p.2 ≤ (idxmaxAux best l).2 := by
  induction l with
  | nil => intro best; exact ⟨le_refl _, by simp⟩
  | cons q rest ih =>
    intro best
    by_cases h : best.2 < q.2
    · simp only [idxmaxAux, h, if_pos]
      refine ⟨le_trans (le_of_lt h) (ih q).1, ?_⟩
      intro p hp
      rcases List.mem_cons.mp hp with heq | hp'
      · rw [heq]
        exact (ih q).1
      · exact (ih q).2 p hp'
    · simp only [idxmaxAux, h, if_neg, ite_false]
      refine ⟨(ih best).1, ?_⟩
      intro p hp
      rcases List.mem_cons.mp hp with heq | hp'
      · rw [heq]
        exact le_trans (le_of_not_lt h) (ih best).1
      · exact (ih best).2 p hp'

/-- When the scanned series has strictly ascending keys, the element the
idxmax scan settles on has the smallest key among all entries attaining
the maximal value (first occurrence wins and keys ascend). -/
theorem idxmaxAux_tie_min (l : List (String × Int)) :
    ∀ best, (best :: l).Pairwise (fun a b => a.1 < b.1) →
      ∀ p ∈ best :: l, p.2 = (idxmaxAux best l).2 → (idxmaxAux best l).1 ≤ p.1 := by
  induction l with
  | nil =>
    intro best _ p hp _
    rcases List.mem_cons.mp hp with rfl | hp'
    · exact le_refl _
    · exact absurd hp' (List.not_mem_nil p)
  | cons q rest ih =>
    intro best hpw p hp hval
    have hpw_q : (q :: rest).Pairwise (fun a b => a.1 < b.1) := hpw.of_cons
    have hpw_b : (best :: rest).Pairwise (fun a b => a.1 < b.1) :=
      hpw.sublist ((rest.sublist_cons_self q).cons_cons best)
    by_cases h : best.2 < q.2
    · simp only [idxmaxAux, h, if_pos] at hval ⊢
      rcases List.mem_cons.mp hp with heq | hp'
      · exfalso
        have hlt : best.2 < (idxmaxAux q rest).2 :=
          lt_of_lt_of_le h (idxmaxAux_le rest q).1
        rw [heq] at hval
        exact absurd hval (ne_of_lt hlt)
      · exact ih q hpw_q p hp' hval
    · simp only [idxmaxAux, h, if_neg, ite_false] at hval ⊢
      rcases List.mem_cons.mp hp with heq | hp'
      · rw [heq] at hval ⊢
        exact ih best hpw_b best (List.mem_cons_self best rest) hval
      · rcases List.mem_cons.mp hp' with heq | hp''
        · rcases idxmaxAux_mem rest best with hres | ⟨hmem, hlt⟩
          · rw [hres, heq]
            exact le_of_lt (List.rel_of_pairwise_cons hpw (List.mem_cons_self q rest))
          · exfalso
            rw [heq] at hval
            have hq : q.2 ≤ best.2 := le_of_not_lt h
            exact absurd hval (ne_of_lt (lt_of_le_of_lt hq hlt))
        · exact ih best hpw_b p (List.mem_cons_of_mem best hp'') hval

/-- The key-value pairs of a grouped sum have strictly ascending keys. -/
theorem sum_by_keys_sorted (f : Record → String) (view : List Record) :
    (sum_by f view).Pairwise (fun a b => a.1 < b.1) := by
  unfold sum_by
  exact List.pairwise_map.mpr (group_keys_sorted f view)

/-- C10: on a non-empty view the largest-group KPI is the key of the
first maximal entry of the ascending-key grouped-sum series, hence the
lexicographically smallest key among those attaining the maximal summed
value — a deterministic function of the view.  Instantiating `f` with
`Record.publisher` and `Record.platform` gives the two `kpi_section`
KPIs `kpi_top_publisher` and `kpi_top_platform`. -/
theorem kpi_top_group_min_key (f : Record → String) (view : List Record)
    (h : view ≠ []) :
    ∃ k v, idxmax (sum_by f view) = some k ∧ (k, v) ∈ sum_by f view ∧
      (∀ p ∈ sum_by f view, p.2 ≤ v) ∧
      ∀ p ∈ sum_by f view, p.2 = v → k ≤ p.1 := by
  obtain ⟨r, rs, rfl⟩ := List.exists_cons_of_ne_nil h
  have hne : sum_by f (r :: rs) ≠ [] := by
    have hk : f r ∈ group_keys f (r :: rs) :=
      mem_group_keys.mpr ⟨r, List.mem_cons_self r rs, rfl⟩
    unfold sum_by
    intro hnil
    rw [List.map_eq_nil_iff] at hnil
    exact absurd (hnil ▸ hk) (List.not_mem_nil _)
  obtain ⟨p, rest, hcons⟩ := List.exists_cons_of_ne_nil hne
  refine ⟨(idxmaxAux p rest).1, (idxmaxAux p rest).2, ?_, ?_, ?_, ?_⟩
  · rw [hcons]
    rfl
  · rw [hcons, Prod.mk.eta]
    rcases idxmaxAux_mem rest p with heq | ⟨hmem, -⟩
    · rw [heq]
      exact List.mem_cons_self p rest
    · exact List.mem_cons_of_mem p hmem
  · rw [hcons]
    intro q hq
    rcases List.mem_cons.mp hq with heq | hq'
    · rw [heq]
      exact (idxmaxAux_le rest p).1
    · exact (idxmaxAux_le rest p).2 q hq'
  · rw [hcons]
    have hpw : (p :: rest).Pairwise (fun a b => a.1 < b.1) :=
      hcons ▸ sum_by_keys_sorted f (r :: rs)
    exact idxmaxAux_tie_min rest p hpw

/-- Witness for C10: on the concrete tied view the publisher KPI exists
and is the smallest tied key. -/
theorem kpi_top_group_min_key_witness :
    ∃ k v, idxmax (sum_by Record.publisher tieView) = some k ∧
      (k, v) ∈ sum_by Record.publisher tieView ∧
      (∀ p ∈ sum_by Record.publisher tieView, p.2 ≤ v) ∧
      ∀ p ∈ sum_by Record.publisher tieView, p.2 = v → k ≤ p.1 :=
  kpi_top_group_min_key Record.publisher tieView (by decide)

/-- Inserting an entry whose key is below every key of a
(value descending, ties key ascending)-sorted list keeps the list
sorted: the entry lands before every entry of equal or smaller value,
and its key is below the keys of the equal-valued entries it now
precedes. -/
theorem orderedInsert_lex_desc (x : String × Int) (s : List (String × Int))
    (hkey : ∀ q ∈ s, x.1 < q.1)
    (hs : s.Pairwise fun p q => q.2 < p.2 ∨ (q.2 = p.2 ∧ p.1 < q.1)) :
    (s.orderedInsert (fun p q => q.2 ≤ p.2) x).Pairwise
      fun p q => q.2 < p.2 ∨ (q.2 = p.2 ∧ p.1 < q.1) := by
  induction s with
  | nil => simp [List.orderedInsert]
  | cons y ys ih =>
    by_cases hxy : y.2 ≤ x.2
    · rw [List.orderedInsert, if_pos hxy]
      refine List.Pairwise.cons ?_ hs
      intro q hq
      have hqx : q.2 ≤ x.2 := by
        rcases List.mem_cons.mp hq with heq | hq'
        · rw [heq]
          exact hxy
        · rcases List.rel_of_pairwise_cons hs hq' with hlt | ⟨heq2, -⟩
          · exact le_trans (le_of_lt hlt) hxy
          · exact le_trans (le_of_eq heq2) hxy
      rcases lt_or_eq_of_le hqx with hlt | heq
      · exact Or.inl hlt
      · exact Or.inr ⟨heq, hkey q hq⟩
    · rw [List.orderedInsert, if_neg hxy]
      refine List.Pairwise.cons ?_
        (ih (fun q hq => hkey q (List.mem_cons_of_mem y hq)) hs.of_cons)
      intro q hq
      rcases (List.mem_orderedInsert _).mp hq with heq | hq'
      · rw [heq]
        exact Or.inl (lt_of_not_le hxy)
      · exact List.rel_of_pairwise_cons hs hq'

/-- The stable descending-by-value insertion sort of a strictly
ascending-key series is sorted by value descending with ties in
ascending key order (stability keeps equal values in input order). -/
theorem insertionSort_lex_desc (t : List (String × Int))
    (ht : t.Pairwise fun p q => p.1 < q.1) :
    (t.insertionSort fun p q => q.2 ≤ p.2).Pairwise
      fun p q => q.2 < p.2 ∨ (q.2 = p.2 ∧ p.1 < q.1) := by
  induction t with
  | nil => simp [List.insertionSort]
  | cons x xs ih =>
    rw [List.insertionSort]
    refine orderedInsert_lex_desc x _ ?_ (ih ht.of_cons)
    intro q hq
    exact List.rel_of_pairwise_cons ht ((List.mem_insertionSort _).mp hq)

/-- Applying `sort_values(ascending=False)` to a strictly-ascending-key
series sorts it by value descending with ties kept in ascending key
order: the stable sort preserves the original (key-ascending) series
order of equal values. -/
theorem sort_values_desc_sorted (t : List (String × Int))
    (ht : t.Pairwise fun p q => p.1 < q.1) :
    (sort_values_desc t).Pairwise
      fun p q => q.2 < p.2 ∨ (q.2 = p.2 ∧ p.1 < q.1) :=
  insertionSort_lex_desc t ht

/-- C3: the top-N chart pipeline returns (key, value) pairs sorted by
value descending, of length `min n (number of distinct keys)`; ties in
value are broken by ascending key (the grouped series lists its keys
ascending and the descending sort is stable), and the pipeline is a pure
function of the grouped table, so re-running it on unchanged input
yields an identical result. -/
theorem top_n_spec (f : Record → String) (view : List Record) (n : Nat) :
    (top_n f view n).length = min n (sum_by f view).length ∧
      ((top_n f view n).Pairwise fun p q => q.2 ≤ p.2) ∧
      (top_n f view n).Pairwise fun p q => p.2 = q.2 → p.1 < q.1 := by
  have hsorted := sort_values_desc_sorted (sum_by f view) (sum_by_keys_sorted f view)
  have htake : (top_n f view n).Pairwise
      fun p q => q.2 < p.2 ∨ (q.2 = p.2 ∧ p.1 < q.1) := List.Pairwise.take hsorted
  refine ⟨?_, ?_, ?_⟩
  · simp [top_n, sort_values_desc]
  · refine htake.imp ?_
    intro p q h
    rcases h with hlt | ⟨heq, -⟩
    · exact le_of_lt hlt
    · exact le_of_eq heq
  · refine htake.imp ?_
    intro p q h heq
    rcases h with hlt | ⟨-, hk⟩
    · exact absurd (heq ▸ hlt) (lt_irrefl _)
    · exact hk

/-- Witness for C3: the top-N specification evaluated on the concrete
tied two-genre view with n = 5, together with the evaluated output
showing the tie resolved in ascending key order ("Action" first). -/
theorem top_n_spec_witness :
    top_n Record.genre tieGenreView 5 = [("Action", 1), ("Racing", 1)] ∧
      ((top_n Record.genre tieGenreView 5).length =
          min 5 (sum_by Record.genre tieGenreView).length ∧
        ((top_n Record.genre tieGenreView 5).Pairwise fun p q => q.2 ≤ p.2) ∧
        (top_n Record.genre tieGenreView 5).Pairwise
          fun p q => p.2 = q.2 → p.1 < q.1) :=
  ⟨by decide, top_n_spec Record.genre tieGenreView 5⟩

/-- Counterexample to C5 as stated: "Zed" is among the selected top-10
publishers, yet the pivoted matrix has no "Zed" row at all — its only
record pairs with the non-selected platform P11, so the restriction
removes it and `pivot` never creates the row; the (publisher, platform)
pairs ("Zed", P01..P10) carry no zero-filled cells, contradicting the
claimed dense matrix over all pairs of selected keys. -/
theorem heatmap_counterexample :
    "Zed" ∈ nlargest_keys 10 (sum_by Record.publisher heatCexView) ∧
      (publisher_platform_heatmap heatCexView).map Prod.fst = ["Activision"] := by
  constructor
  · decide
  · decide

/-- C5 (amended): the heatmap restricts to the top-10 publishers and
top-10 platforms, both ranked over the unrestricted view; its rows and
columns are the selected publishers and platforms still present in the
restricted data (a selected key whose every record pairs with an
unselected key of the other dimension is dropped), and within that
matrix every (row, column) cell exists, holding the summed sales and in
particular an explicit 0 when no restricted record matches. -/
theorem heatmap_spec (view : List Record) (p q : String)
    (hp : p ∈ heatmap_rows view) (hq : q ∈ heatmap_cols view) :
    heatmap_rows view ⊆ nlargest_keys 10 (sum_by Record.publisher view) ∧
      heatmap_cols view ⊆ nlargest_keys 10 (sum_by Record.platform view) ∧
      (p, (heatmap_cols view).map fun c => (c, cell_sum view p c)) ∈
        publisher_platform_heatmap view ∧
      ((q, cell_sum view p q) ∈ (heatmap_cols view).map fun c => (c, cell_sum view p c)) ∧
      ((∀ r ∈ restricted_view view, ¬(r.publisher = p ∧ r.platform = q)) →
        cell_sum view p q = 0) := by
  refine ⟨?_, ?_, ?_, ?_, ?_⟩
  · intro x hx
    obtain ⟨r, hr, hrx⟩ := mem_group_keys.mp hx
    have := (List.mem_filter.mp hr).2
    rw [decide_eq_true_eq] at this
    exact hrx ▸ this.1
  · intro x hx
    obtain ⟨r, hr, hrx⟩ := mem_group_keys.mp hx
    have := (List.mem_filter.mp hr).2
    rw [decide_eq_true_eq] at this
    exact hrx ▸ this.2
  · exact List.mem_map_of_mem _ hp
  · exact List.mem_map_of_mem _ hq
  · intro hnone
    unfold cell_sum
    have hnil : ((restricted_view view).filter fun r =>
        decide (r.publisher = p ∧ r.platform = q)) = [] := by
      rw [List.filter_eq_nil_iff]
      intro r hr
      simpa using hnone r hr
    rw [hnil]
    rfl

/-- Witness for C5 (amended): the heatmap specification evaluated on the
sample store at row "Nintendo" and column "PS4" — a combination with no
matching record, whose cell is an explicit 0. -/
theorem heatmap_spec_witness :
    heatmap_rows sampleStore ⊆ nlargest_keys 10 (sum_by Record.publisher sampleStore) ∧
      heatmap_cols sampleStore ⊆ nlargest_keys 10 (sum_by Record.platform sampleStore) ∧
      ("Nintendo", (heatmap_cols sampleStore).map
          fun c => (c, cell_sum sampleStore "Nintendo" c)) ∈
        publisher_platform_heatmap sampleStore ∧
      (("PS4", cell_sum sampleStore "Nintendo" "PS4") ∈ (heatmap_cols sampleStore).map
          fun c => (c, cell_sum sampleStore "Nintendo" c)) ∧
      ((∀ r ∈ restricted_view sampleStore,
          ¬(r.publisher = "Nintendo" ∧ r.platform = "PS4")) →
        cell_sum sampleStore "Nintendo" "PS4" = 0) :=
  heatmap_spec sampleStore "Nintendo" "PS4" (by decide) (by decide)

/-- C6 (code bug): the load performs no validation.  A single
non-numeric sales value does abort the load, but only with an incidental
`TypeError` from mixed-type addition; and when every one of the four
sales columns contains a non-numeric token, all four become object
columns and the Total_Sales derivation silently concatenates the strings
("a"+"b"+"c"+"d" = "abcd") — the load completes with a coerced value
instead of failing, contradicting the claimed fail-fast behaviour. -/
theorem load_silent_coercion :
    clean_pipeline [badSalesRow] = Except.ok [coercedRow] ∧
      coercedRow.total = Cell.str "abcd" ∧
      clean_pipeline [oneBadRow] =
        Except.error "TypeError: unsupported operand types" := by
  refine ⟨rfl, rfl, rfl⟩

end VG
